import Mathlib

/-!
Shallow embedding of the `de1` espresso-machine protocol crate
(`src/lib.rs` and `src/serial.rs`) together with proofs about the
fixed-point codec, the frame grammar, the typed payload decoder and the
incremental line reader.

Machine integers are modelled as `Nat` with explicit bounds (`< 256` for
bytes, `< 2^16` for `u16`, ...).  Fixed-point values of the `fixed` crate
(`U8F24`, `U8F8`, ...) are represented by their raw bit pattern, exactly as
`from_bits`/`to_bits` expose them in the source.  Fallible operations
return `Option`/`Except`.
-/

/-- Error type of the crate (`lib.rs`): `ParseError`, `BinRwError` (any
`binrw` read failure) and `UnknownCommand` carrying the offending
character.  `serial.rs` additionally has I/O errors which never arise in
the pure fragment modelled here. -/
inductive Error where
  | ParseError : Error
  | BinRwError : Error
  | UnknownCommand : Char → Error
deriving DecidableEq, Repr

/-- Embedding of `read_u24` (`lib.rs`): three big-endian bytes
zero-extended to a 32-bit value. -/
def read_u24 (b0 b1 b2 : Nat) : Nat :=
  b0 * 65536 + b1 * 256 + b2

/-- Embedding of `write_u24` (`lib.rs`): `to_be_bytes` of the 32-bit value
with the (zero) top byte dropped. -/
def write_u24 (v : Nat) : List Nat :=
  [v / 65536 % 256, v / 256 % 256, v % 256]

/-- Bits of `U8F24::from_num(12.7)` (`lib.rs`, `write_f817` threshold).
`12.7 : f64` is a hair below 12.7, and multiplying by `2^24` and rounding
to the nearest representable value gives `⌊12.7 * 2^24⌋ = 213070643`. -/
def f817Threshold : Nat := 213070643

/-- Embedding of `read_f817` (`lib.rs`) on the raw byte: bits 0–6 become
the integer part of a `U8F24` (bits `(val & 0x7f) << 24`); if bit 7 is
clear the fixed-point value is divided by 10 (bit-wise truncating
division, as `Div<u32>` of the `fixed` crate divides the raw bits).
The result is the raw `U8F24` bit pattern. -/
def read_f817 (val : Nat) : Nat :=
  if val &&& 0x80 = 0 then
    ((val &&& 0x7f) * 2 ^ 24) / 10
  else
    (val &&& 0x7f) * 2 ^ 24

/-- Embedding of `write_f817` (`lib.rs`) on `U8F24` raw bits: values up to
`U8F24::from_num(12.7)` are scaled by ten and truncated to an integer
(`u8::lossy_from` drops the fractional bits), larger values are truncated
to an integer and tagged with bit 7. -/
def write_f817 (bits : Nat) : Nat :=
  if bits ≤ f817Threshold then
    (bits * 10) / 2 ^ 24
  else
    (bits / 2 ^ 24) ||| 0x80

/-- The `Command` enumeration (`lib.rs`), deprecated variants omitted as
in the source. -/
inductive Command where
  | Versions | RequestedState | ReadFromMmr | WriteToMmr | FwMapRequest
  | ShotSettings | ShotSample | StateInfo | HeaderWrite | FrameWrite
  | WaterLevels | Calibration
deriving DecidableEq, Repr

/-- Embedding of `Command::serial_command` (`lib.rs`). -/
def Command.serial_command : Command → Char
  | .Versions => 'A'
  | .RequestedState => 'B'
  | .ReadFromMmr => 'E'
  | .WriteToMmr => 'F'
  | .FwMapRequest => 'I'
  | .ShotSettings => 'K'
  | .ShotSample => 'M'
  | .StateInfo => 'N'
  | .HeaderWrite => 'O'
  | .FrameWrite => 'P'
  | .WaterLevels => 'Q'
  | .Calibration => 'R'

/-- Embedding of `Command::data_len` (`lib.rs`). -/
def Command.data_len : Command → Nat
  | .Versions => 18
  | .RequestedState => 1
  | .ReadFromMmr => 20
  | .WriteToMmr => 20
  | .FwMapRequest => 7
  | .ShotSettings => 10
  | .ShotSample => 19
  | .StateInfo => 2
  | .HeaderWrite => 5
  | .FrameWrite => 8
  | .WaterLevels => 4
  | .Calibration => 14

/-- Modelled from the spec: `Command::MAX_DATA_LENGTH` is referenced by
`serial.rs` but its definition is not among the provided sources; per the
spec it is "the largest payload length across all known commands", which
is 20 (`ReadFromMmr`/`WriteToMmr`). -/
def Command.MAX_DATA_LENGTH : Nat := 20

/-- Byte-stream readers in the style of `binrw`: consume a prefix of a
byte list, returning the decoded value and the unread rest, or `none` on
failure (end of input or an invalid enum byte). -/
def Rd (α : Type) : Type := List Nat → Option (α × List Nat)

/-- Sequencing of byte readers (a `binrw` struct reads its fields in
declaration order from one cursor). -/
def rdBind {α β : Type} (p : Rd α) (q : α → Rd β) : Rd β :=
  fun d => (p d).bind fun ar => q ar.1 ar.2

/-- Reader returning a value without consuming input. -/
def rdPure {α : Type} (a : α) : Rd α := fun d => some (a, d)

/-- Read one byte (`u8`). -/
def rdU8 : Rd Nat
  | b :: r => some (b, r)
  | [] => none

/-- Read a big-endian `u16`. -/
def rdU16 : Rd Nat
  | b0 :: b1 :: r => some (b0 * 256 + b1, r)
  | _ => none

/-- Read three bytes through `read_u24` (also the raw bits of
`read_u8f16`, which zero-extends the same three big-endian bytes). -/
def rdU24 : Rd Nat
  | b0 :: b1 :: b2 :: r => some (read_u24 b0 b1 b2, r)
  | _ => none

/-- Read a `[u8; 16]` array. -/
def rdArr16 : Rd (List Nat) := fun d =>
  if 16 ≤ d.length then some (d.take 16, d.drop 16) else none

/-- Apply a `#[br(map = ...)]` function to a reader's result. -/
def rdMap {α β : Type} (f : α → β) (p : Rd α) : Rd β :=
  fun d => (p d).map fun ar => (f ar.1, ar.2)

/-- A reader `p` has fixed length `k`: its value depends only on the
first `k` input bytes, it fails on shorter input, and on success it
returns exactly the input minus its first `k` bytes. -/
def IsLen {α : Type} (p : Rd α) (k : Nat) : Prop :=
  ∀ d : List Nat,
    (p d).map Prod.fst = (p (d.take k)).map Prod.fst ∧
    (d.length < k → p d = none) ∧
    (∀ a r, p d = some (a, r) → r = d.drop k)

theorem isLen_pure {α : Type} (a : α) : IsLen (rdPure a) 0 := by
  intro d
  refine ⟨by simp [rdPure], by omega, ?_⟩
  intro a' r h
  simp [rdPure] at h
  simp [h.2]

theorem isLen_u8 : IsLen rdU8 1 := by
  intro d
  rcases d with _ | ⟨b, r⟩ <;> simp [rdU8]

theorem isLen_u16 : IsLen rdU16 2 := by
  intro d
  rcases d with _ | ⟨b0, _ | ⟨b1, r⟩⟩ <;> simp [rdU16]

theorem isLen_u24 : IsLen rdU24 3 := by
  intro d
  rcases d with _ | ⟨b0, _ | ⟨b1, _ | ⟨b2, r⟩⟩⟩ <;> simp [rdU24]

theorem isLen_arr16 : IsLen rdArr16 16 := by
  intro d
  by_cases h : 16 ≤ d.length
  · have hlen : (d.take 16).length = 16 := by simp [h]
    refine ⟨?_, ?_, ?_⟩
    · simp [rdArr16, h, hlen, List.take_take]
    · intro hc; omega
    · intro a r hr
      simp [rdArr16, h] at hr
      simp [← hr.2]
  · have htk : d.take 16 = d := List.take_of_length_le (by omega)
    refine ⟨by rw [htk], ?_, ?_⟩
    · intro _
      simp only [rdArr16, if_neg h]
    · intro a r hr
      simp only [rdArr16, if_neg h] at hr
      exact absurd hr (by simp)

theorem isLen_map {α β : Type} (f : α → β) (p : Rd α) (k : Nat)
    (hp : IsLen p k) : IsLen (rdMap f p) k := by
  intro d
  obtain ⟨h1, h2, h3⟩ := hp d
  refine ⟨?_, ?_, ?_⟩
  · have := congrArg (Option.map f) h1
    simpa [rdMap, Option.map_map, Function.comp_def] using this
  · intro h
    simp [rdMap, h2 h]
  · intro b r h
    simp only [rdMap, Option.map_eq_some'] at h
    obtain ⟨ar, har, heq⟩ := h
    have := h3 ar.1 ar.2 (by simpa using har)
    have hr : r = ar.2 := by
      cases heq
      rfl
    rw [hr, this]

theorem isLen_bind {α β : Type} (p : Rd α) (q : α → Rd β) (k m : Nat)
    (hp : IsLen p k) (hq : ∀ a, IsLen (q a) m) :
    IsLen (rdBind p q) (k + m) := by
  intro d
  obtain ⟨h1, h2, h3⟩ := hp d
  obtain ⟨t1, t2, t3⟩ := hp (d.take (k + m))
  have hmin : min k (k + m) = k := by omega
  have htake : (d.take (k + m)).take k = d.take k := by
    rw [List.take_take, hmin]
  have hdrop : (d.take (k + m)).drop k = (d.drop k).take m := by
    rw [List.drop_take]
    congr 1
    omega
  rw [htake] at t1
  refine ⟨?_, ?_, ?_⟩
  · cases hd : p d with
    | none =>
      have hn1 : (p (d.take k)).map Prod.fst = none := by
        rw [← h1, hd]; rfl
      have hn2 : p (d.take (k + m)) = none := by
        have := t1.trans hn1
        exact Option.map_eq_none'.mp this
      simp [rdBind, hd, hn2]
    | some ar =>
      obtain ⟨a, r⟩ := ar
      have hr : r = d.drop k := h3 a r hd
      have hs1 : (p (d.take k)).map Prod.fst = some a := by
        rw [← h1, hd]; rfl
      have hs2 : (p (d.take (k + m))).map Prod.fst = some a := t1.trans hs1
      obtain ⟨⟨a', r'⟩, hx, hfst⟩ := Option.map_eq_some'.mp hs2
      replace hfst : a' = a := hfst
      have hr' : r' = (d.drop k).take m := by
        rw [t3 a' r' hx, hdrop]
      subst hr hr'
      simp only [rdBind, hd, hx, Option.bind_some]
      rw [hfst]
      exact (hq a (d.drop k)).1
  · intro h
    cases hd : p d with
    | none => simp [rdBind, hd]
    | some ar =>
      obtain ⟨a, r⟩ := ar
      by_cases hk : d.length < k
      · rw [h2 hk] at hd
        exact absurd hd (by simp)
      · have hr : r = d.drop k := h3 a r hd
        have hlen : r.length < m := by
          subst hr
          simp only [List.length_drop]
          omega
        simp [rdBind, hd, (hq a r).2.1 hlen]
  · intro b r2 h
    simp only [rdBind, Option.bind_eq_some] at h
    obtain ⟨⟨a, r⟩, hd, hqr⟩ := h
    have hr : r = d.drop k := h3 a r hd
    have := (hq a r).2.2 b r2 hqr
    subst hr this
    rw [List.drop_drop]

theorem isLen_cast {α : Type} (p : Rd α) (k k' : Nat) (h : k = k')
    (hp : IsLen p k) : IsLen p k' := h ▸ hp

/-- Validity of a `State` discriminant byte (`lib.rs`): the `#[br(repr =
u8)]` enum lists the contiguous codes `0x00`–`0x14`. -/
def State.isValid (b : Nat) : Bool := b ≤ 0x14

/-- Validity of a `SubState` discriminant byte (`lib.rs`): codes
`0x00`–`0x12` plus the error codes `200`–`213`. -/
def SubState.isValid (b : Nat) : Bool := b ≤ 0x12 || (200 ≤ b && b ≤ 213)

/-- Validation step of a `#[br(repr = u8)]` enum read: consumes nothing
and fails when the byte is not a listed discriminant. -/
def rdCheck (valid : Nat → Bool) (b : Nat) : Rd Nat :=
  fun d => if valid b then some (b, d) else none

theorem isLen_check (valid : Nat → Bool) (b : Nat) :
    IsLen (rdCheck valid b) 0 := by
  intro d
  refine ⟨?_, by omega, ?_⟩
  · by_cases h : valid b <;> simp [rdCheck, h]
  · intro a r hr
    by_cases h : valid b
    · simp [rdCheck, h] at hr
      simp [← hr.2]
    · simp [rdCheck, h] at hr

/-- Read a `State` byte (`#[br(repr = u8)]`). -/
def rdState : Rd Nat := rdBind rdU8 (rdCheck State.isValid)

/-- Read a `SubState` byte (`#[br(repr = u8)]`). -/
def rdSubState : Rd Nat := rdBind rdU8 (rdCheck SubState.isValid)

theorem isLen_rdState : IsLen rdState 1 :=
  isLen_cast _ _ _ (by norm_num)
    (isLen_bind _ _ 1 0 isLen_u8 (isLen_check State.isValid))

theorem isLen_rdSubState : IsLen rdSubState 1 :=
  isLen_cast _ _ _ (by norm_num)
    (isLen_bind _ _ 1 0 isLen_u8 (isLen_check SubState.isValid))

/-- `RequestedState` (`lib.rs`): a single `State` byte; the enum value is
represented by its discriminant code. -/
structure RequestedState where
  state : Nat
deriving DecidableEq, Repr

/-- `MmrOpperation` (`lib.rs`, sic): length descriptor byte, 24-bit
big-endian address (`read_u24`/`write_u24` maps) and a 16-byte buffer. -/
structure MmrOpperation where
  len : Nat
  addr : Nat
  data : List Nat
deriving DecidableEq, Repr

/-- `ShotSettings` (`lib.rs`): seven `u8` fields and a final `U8F8`
(16 raw bits, stored as bits). -/
structure ShotSettings where
  steam_flags : Nat
  target_steam_temp : Nat
  target_steam_length : Nat
  target_hot_water_temp : Nat
  target_hot_water_volume : Nat
  target_hot_water_length : Nat
  target_espresso_volume : Nat
  target_group_temp : Nat
deriving DecidableEq, Repr

/-- `ShotSample` (`lib.rs`); fixed-point fields are stored as raw bits. -/
structure ShotSample where
  timer : Nat
  group_pressure : Nat
  group_flow : Nat
  mix_temp : Nat
  head_temp : Nat
  set_mix_temp : Nat
  set_head_temp : Nat
  set_group_pressure : Nat
  set_group_flow : Nat
  frame_number : Nat
  steam_temp : Nat
deriving DecidableEq, Repr

/-- `StateInfo` (`lib.rs`): a `State` byte and a `SubState` byte. -/
structure StateInfo where
  state : Nat
  sub_state : Nat
deriving DecidableEq, Repr

/-- `ShotHeaderWrite` (`lib.rs`). -/
structure ShotHeaderWrite where
  version : Nat
  frames : Nat
  preinfuse_frames : Nat
  minimum_pressure : Nat
  minimum_flow : Nat
deriving DecidableEq, Repr

/-- `ShotFrameWrite` (`lib.rs`); `frame_lenght` (sic) holds `U8F24` raw
bits obtained through `read_f817`, and `max_volume` is masked with
`0x3ff` on both read and write. -/
structure ShotFrameWrite where
  index : Nat
  flags : Nat
  set_value : Nat
  temp : Nat
  frame_lenght : Nat
  trigger_value : Nat
  max_volume : Nat
deriving DecidableEq, Repr

/-- `WaterLevels` (`lib.rs`): two `U8F8` fields. -/
structure WaterLevels where
  level : Nat
  start_fill_level : Nat
deriving DecidableEq, Repr

/-- `binrw` reader of `RequestedState` (field order as declared). -/
def requestedStateRead : Rd RequestedState :=
  rdMap RequestedState.mk rdState

/-- `binrw` reader of `MmrOpperation`. -/
def mmrOpperationRead : Rd MmrOpperation :=
  rdBind rdU8 fun len =>
  rdBind rdU24 fun addr =>
  rdMap (fun data => MmrOpperation.mk len addr data) rdArr16

/-- `binrw` writer of `MmrOpperation`. -/
def MmrOpperation.write (op : MmrOpperation) : List Nat :=
  op.len :: (write_u24 op.addr ++ op.data)

/-- `binrw` reader of `ShotSettings`. -/
def shotSettingsRead : Rd ShotSettings :=
  rdBind rdU8 fun f1 =>
  rdBind rdU8 fun f2 =>
  rdBind rdU8 fun f3 =>
  rdBind rdU8 fun f4 =>
  rdBind rdU8 fun f5 =>
  rdBind rdU8 fun f6 =>
  rdBind rdU8 fun f7 =>
  rdMap (fun f8 => ShotSettings.mk f1 f2 f3 f4 f5 f6 f7 f8) rdU16

/-- `binrw` reader of `ShotSample`. -/
def shotSampleRead : Rd ShotSample :=
  rdBind rdU16 fun timer =>
  rdBind rdU16 fun gp =>
  rdBind rdU16 fun gf =>
  rdBind rdU16 fun mt =>
  rdBind rdU24 fun ht =>
  rdBind rdU16 fun smt =>
  rdBind rdU16 fun sht =>
  rdBind rdU8 fun sgp =>
  rdBind rdU8 fun sgf =>
  rdBind rdU8 fun fn =>
  rdMap (fun st => ShotSample.mk timer gp gf mt ht smt sht sgp sgf fn st) rdU8

/-- `binrw` reader of `StateInfo`. -/
def stateInfoRead : Rd StateInfo :=
  rdBind rdState fun s =>
  rdMap (fun ss => StateInfo.mk s ss) rdSubState

/-- `binrw` reader of `ShotHeaderWrite`. -/
def shotHeaderWriteRead : Rd ShotHeaderWrite :=
  rdBind rdU8 fun v =>
  rdBind rdU8 fun fr =>
  rdBind rdU8 fun pf =>
  rdBind rdU8 fun mp =>
  rdMap (fun mf => ShotHeaderWrite.mk v fr pf mp mf) rdU8

/-- `binrw` reader of `ShotFrameWrite`: note the `read_f817` map on
`frame_lenght` and the `& 0x3ff` mask on `max_volume`. -/
def shotFrameWriteRead : Rd ShotFrameWrite :=
  rdBind rdU8 fun idx =>
  rdBind rdU8 fun fl =>
  rdBind rdU8 fun sv =>
  rdBind rdU8 fun tp =>
  rdBind (rdMap read_f817 rdU8) fun fln =>
  rdBind rdU8 fun tv =>
  rdMap (fun mv => ShotFrameWrite.mk idx fl sv tp fln tv mv)
    (rdMap (fun v => v &&& 0x3ff) rdU16)

/-- Big-endian `u16` byte pair (`to_be_bytes`). -/
def write_u16 (v : Nat) : List Nat := [v / 256 % 256, v % 256]

/-- `binrw` writer of `ShotFrameWrite`: `write_f817` on `frame_lenght`
and the `& 0x3ff` mask on `max_volume`. -/
def ShotFrameWrite.write (s : ShotFrameWrite) : List Nat :=
  [s.index, s.flags, s.set_value, s.temp, write_f817 s.frame_lenght,
   s.trigger_value] ++ write_u16 (s.max_volume &&& 0x3ff)

/-- `binrw` reader of `WaterLevels`. -/
def waterLevelsRead : Rd WaterLevels :=
  rdBind rdU16 fun lv =>
  rdMap (fun sf => WaterLevels.mk lv sf) rdU16

theorem isLen_requestedStateRead : IsLen requestedStateRead 1 :=
  isLen_map _ _ 1 isLen_rdState

theorem isLen_mmrOpperationRead : IsLen mmrOpperationRead 20 :=
  isLen_cast _ _ _ (by norm_num)
    (isLen_bind _ _ 1 19 isLen_u8 fun _ =>
      isLen_bind _ _ 3 16 isLen_u24 fun _ =>
        isLen_map _ _ 16 isLen_arr16)

theorem isLen_shotSettingsRead : IsLen shotSettingsRead 9 :=
  isLen_cast _ _ _ (by norm_num)
    (isLen_bind _ _ 1 8 isLen_u8 fun _ =>
      isLen_bind _ _ 1 7 isLen_u8 fun _ =>
        isLen_bind _ _ 1 6 isLen_u8 fun _ =>
          isLen_bind _ _ 1 5 isLen_u8 fun _ =>
            isLen_bind _ _ 1 4 isLen_u8 fun _ =>
              isLen_bind _ _ 1 3 isLen_u8 fun _ =>
                isLen_bind _ _ 1 2 isLen_u8 fun _ =>
                  isLen_map _ _ 2 isLen_u16)

theorem isLen_shotSampleRead : IsLen shotSampleRead 19 :=
  isLen_cast _ _ _ (by norm_num)
    (isLen_bind _ _ 2 17 isLen_u16 fun _ =>
      isLen_bind _ _ 2 15 isLen_u16 fun _ =>
        isLen_bind _ _ 2 13 isLen_u16 fun _ =>
          isLen_bind _ _ 2 11 isLen_u16 fun _ =>
            isLen_bind _ _ 3 8 isLen_u24 fun _ =>
              isLen_bind _ _ 2 6 isLen_u16 fun _ =>
                isLen_bind _ _ 2 4 isLen_u16 fun _ =>
                  isLen_bind _ _ 1 3 isLen_u8 fun _ =>
                    isLen_bind _ _ 1 2 isLen_u8 fun _ =>
                      isLen_bind _ _ 1 1 isLen_u8 fun _ =>
                        isLen_map _ _ 1 isLen_u8)

theorem isLen_stateInfoRead : IsLen stateInfoRead 2 :=
  isLen_cast _ _ _ (by norm_num)
    (isLen_bind _ _ 1 1 isLen_rdState fun _ =>
      isLen_map _ _ 1 isLen_rdSubState)

theorem isLen_shotHeaderWriteRead : IsLen shotHeaderWriteRead 5 :=
  isLen_cast _ _ _ (by norm_num)
    (isLen_bind _ _ 1 4 isLen_u8 fun _ =>
      isLen_bind _ _ 1 3 isLen_u8 fun _ =>
        isLen_bind _ _ 1 2 isLen_u8 fun _ =>
          isLen_bind _ _ 1 1 isLen_u8 fun _ =>
            isLen_map _ _ 1 isLen_u8)

theorem isLen_shotFrameWriteRead : IsLen shotFrameWriteRead 8 :=
  isLen_cast _ _ _ (by norm_num)
    (isLen_bind _ _ 1 7 isLen_u8 fun _ =>
      isLen_bind _ _ 1 6 isLen_u8 fun _ =>
        isLen_bind _ _ 1 5 isLen_u8 fun _ =>
          isLen_bind _ _ 1 4 isLen_u8 fun _ =>
            isLen_bind _ _ 1 3 (isLen_map _ _ 1 isLen_u8) fun _ =>
              isLen_bind _ _ 1 2 isLen_u8 fun _ =>
                isLen_map _ _ 2 (isLen_map _ _ 2 isLen_u16))

theorem isLen_waterLevelsRead : IsLen waterLevelsRead 4 :=
  isLen_cast _ _ _ (by norm_num)
    (isLen_bind _ _ 2 2 isLen_u16 fun _ =>
      isLen_map _ _ 2 isLen_u16)

/-- `CommandFrame` (`serial.rs`): command character plus payload bytes
(a `heapless::Vec<u8, MAX_DATA_LENGTH>` in the source, so well-formed
values have at most `MAX_DATA_LENGTH` bytes, each below 256). -/
structure CommandFrame where
  command : Char
  data : List Nat
deriving DecidableEq, Repr

/-- `Frame` (`serial.rs`). -/
inductive Frame where
  | FromDe1 (f : CommandFrame)
  | ToDe1 (f : CommandFrame)
  | Subscribe (command : Char)
  | Unsubscribe (command : Char)
deriving DecidableEq, Repr

/-- The typed `Packet` (`lib.rs`). -/
inductive Packet where
  | RequestedState (v : RequestedState)
  | ReadFromMmr (v : MmrOpperation)
  | WriteToMmr (v : MmrOpperation)
  | ShotSettings (v : ShotSettings)
  | ShotSample (v : ShotSample)
  | StateInfo (v : StateInfo)
  | ShotHeaderWrite (v : ShotHeaderWrite)
  | ShotFrameWrite (v : ShotFrameWrite)
  | WaterLevels (v : WaterLevels)
  | Subscribe (c : Char)
  | Unsubscribe (c : Char)
deriving DecidableEq, Repr

/-- One dispatch arm of `Packet::from_command` (`lib.rs`):
`T::read(&mut Cursor::new(&command.data))` followed by wrapping in the
`Packet` variant; a `binrw` failure becomes `Error::BinRwError` via the
`From` impl, and unread trailing bytes are not an error. -/
def runCmd {α : Type} (p : Rd α) (g : α → Packet) (d : List Nat) :
    Except Error Packet :=
  match p d with
  | some (a, _) => .ok (g a)
  | none => .error .BinRwError

/-- Embedding of `Packet::from_command` (`lib.rs`), dispatching on the
frame's command character. -/
def Packet.from_command (c : Char) (d : List Nat) : Except Error Packet :=
  match c with
  | 'B' => runCmd requestedStateRead Packet.RequestedState d
  | 'E' => runCmd mmrOpperationRead Packet.ReadFromMmr d
  | 'F' => runCmd mmrOpperationRead Packet.WriteToMmr d
  | 'K' => runCmd shotSettingsRead Packet.ShotSettings d
  | 'M' => runCmd shotSampleRead Packet.ShotSample d
  | 'N' => runCmd stateInfoRead Packet.StateInfo d
  | 'O' => runCmd shotHeaderWriteRead Packet.ShotHeaderWrite d
  | 'P' => runCmd shotFrameWriteRead Packet.ShotFrameWrite d
  | 'Q' => runCmd waterLevelsRead Packet.WaterLevels d
  | c => .error (.UnknownCommand c)

/-- Number of payload bytes each `Packet::from_command` arm actually
reads: the `binrw` struct sizes.  All agree with `Command::data_len`
except `ShotSettings`, whose struct is 9 bytes against a declared
`data_len` of 10. -/
def readSize (c : Char) : Nat :=
  match c with
  | 'B' => 1
  | 'E' => 20
  | 'F' => 20
  | 'K' => 9
  | 'M' => 19
  | 'N' => 2
  | 'O' => 5
  | 'P' => 8
  | 'Q' => 4
  | _ => 0

/-- Nom-style text parsers (`serial.rs`): a parser consumes a prefix of
the character list and returns the rest plus the parsed value, or fails
recoverably. -/
def Ps (α : Type) : Type := List Char → Option (List Char × α)

/-- `nom::character::complete::char(c)` specialised to our model. -/
def pchar (c : Char) : Ps Char := fun s =>
  match s with
  | x :: rest => if x = c then some (rest, c) else none
  | [] => none

/-- `nom::character::complete::anychar`. -/
def anychar : Ps Char := fun s =>
  match s with
  | x :: rest => some (rest, x)
  | [] => none

/-- `is_hex_digit` (`serial.rs`): `char::is_digit(16)`, i.e. one of
`0`–`9` (code points 48–57), `a`–`f` (97–102) or `A`–`F` (65–70). -/
def is_hex_digit (c : Char) : Bool :=
  (48 ≤ c.toNat && c.toNat ≤ 57) ||
  (97 ≤ c.toNat && c.toNat ≤ 102) ||
  (65 ≤ c.toNat && c.toNat ≤ 70)

/-- Numeric value of one hex digit, the per-character core of `from_hex`
(`u8::from_str_radix(i, 16)`): digits `0`–`9` map to 0–9, letters
`a`–`f`/`A`–`F` to 10–15, anything else is a parse failure. -/
def hexVal (c : Char) : Option Nat :=
  if 48 ≤ c.toNat && c.toNat ≤ 57 then some (c.toNat - 48)
  else if 97 ≤ c.toNat && c.toNat ≤ 102 then some (c.toNat - 87)
  else if 65 ≤ c.toNat && c.toNat ≤ 70 then some (c.toNat - 55)
  else none

/-- `hex_byte` (`serial.rs`): `take_while_m_n(2, 2, is_hex_digit)` mapped
through `from_hex` — exactly two hex digits, big-endian nibbles. -/
def hex_byte : Ps Nat := fun s =>
  match s with
  | a :: b :: rest =>
    match hexVal a, hexVal b with
    | some hi, some lo => some (rest, hi * 16 + lo)
    | _, _ => none
  | _ => none

/-- Recursion core of `data` (`serial.rs`): `fold_many_m_n(0,
MAX_DATA_LENGTH, hex_byte, Vec::new, push)` — up to `fuel` repetitions of
`hex_byte`, never failing, pushing in order. -/
def dataAux : Nat → List Char → List Char × List Nat
  | 0, s => (s, [])
  | fuel + 1, s =>
    match hex_byte s with
    | some (rest, b) =>
      match dataAux fuel rest with
      | (r, bs) => (r, b :: bs)
    | none => (s, [])

/-- `data` (`serial.rs`): at most `MAX_DATA_LENGTH` hex byte pairs. -/
def data (s : List Char) : List Char × List Nat :=
  dataAux Command.MAX_DATA_LENGTH s

/-- `from_de1_packet` (`serial.rs`): `'[' COMMAND ']' hex_bytes`. -/
def from_de1_packet : Ps Frame := fun i =>
  match pchar '[' i with
  | none => none
  | some (i, _) =>
    match anychar i with
    | none => none
    | some (i, command) =>
      match pchar ']' i with
      | none => none
      | some (i, _) =>
        match data i with
        | (i, d) => some (i, Frame.FromDe1 ⟨command, d⟩)

/-- `to_de1_packet` (`serial.rs`): `'<' COMMAND '>' hex_bytes`. -/
def to_de1_packet : Ps Frame := fun i =>
  match pchar '<' i with
  | none => none
  | some (i, _) =>
    match anychar i with
    | none => none
    | some (i, command) =>
      match pchar '>' i with
      | none => none
      | some (i, _) =>
        match data i with
        | (i, d) => some (i, Frame.ToDe1 ⟨command, d⟩)

/-- `subscribe_packet` (`serial.rs`): `tag("<+")` then the command
character and `'>'`. -/
def subscribe_packet : Ps Frame := fun i =>
  match pchar '<' i with
  | none => none
  | some (i, _) =>
    match pchar '+' i with
    | none => none
    | some (i, _) =>
      match anychar i with
      | none => none
      | some (i, command) =>
        match pchar '>' i with
        | none => none
        | some (i, _) => some (i, Frame.Subscribe command)

/-- `unsubscribe_packet` (`serial.rs`): `tag("<-")` then the command
character and `'>'`. -/
def unsubscribe_packet : Ps Frame := fun i =>
  match pchar '<' i with
  | none => none
  | some (i, _) =>
    match pchar '-' i with
    | none => none
    | some (i, _) =>
      match anychar i with
      | none => none
      | some (i, command) =>
        match pchar '>' i with
        | none => none
        | some (i, _) => some (i, Frame.Unsubscribe command)

/-- `packet` (`serial.rs`): `alt` over the four alternatives in source
order. -/
def packet (i : List Char) : Option (List Char × Frame) :=
  (from_de1_packet i).orElse fun _ =>
  (to_de1_packet i).orElse fun _ =>
  (subscribe_packet i).orElse fun _ =>
  unsubscribe_packet i

/-- `<Frame as FromStr>::from_str` (`serial.rs`): run `packet`, then any
unparsed input at the end of the string is an error. -/
def Frame.from_str (s : List Char) : Except Error Frame :=
  match packet s with
  | none => .error .ParseError
  | some (rest, f) =>
    if rest.isEmpty then .ok f else .error .ParseError

/-- Uppercase hex digit of a nibble: `char::from_digit(_, 16)` followed
by `to_ascii_uppercase` (`Frame::append_data`): 0–9 become code points
48–57 (`0`–`9`), 10–15 become 65–70 (`A`–`F`, i.e. `55 + n`). -/
def hexDigitUpper (n : Nat) : Char :=
  if n < 10 then Char.ofNat (48 + n) else Char.ofNat (55 + n)

/-- `Frame::append_data` (`serial.rs`): each byte as two uppercase hex
digits, high nibble (`b >> 4`) first, low nibble (`b & 0xf`) second. -/
def append_data (d : List Nat) : List Char :=
  d.flatMap fun b => [hexDigitUpper (b / 16), hexDigitUpper (b % 16)]

/-- Line built by `Frame::write` (`serial.rs`) before it is sent to the
byte sink, including the trailing newline. -/
def Frame.write : Frame → List Char
  | .FromDe1 f => '[' :: f.command :: ']' :: (append_data f.data ++ ['\n'])
  | .ToDe1 f => '<' :: f.command :: '>' :: (append_data f.data ++ ['\n'])
  | .Subscribe command => '<' :: '+' :: command :: '>' :: ['\n']
  | .Unsubscribe command => '<' :: '-' :: command :: '>' :: ['\n']

/-- `char::is_ascii` (Rust core): code point at most `0x7f`. -/
def charIsAscii (c : Char) : Bool := c.toNat ≤ 0x7f

/-- `LineReader` state (`serial.rs`): bounded text buffer plus overflow
flag.  The capacity `N` is the const generic parameter; buffered
characters are all ASCII (one byte each in the heapless `String`). -/
structure LineReader where
  buffer : List Char
  overflow : Bool
deriving DecidableEq, Repr

/-- `LineReader::new` (`serial.rs`). -/
def LineReader.new : LineReader := ⟨[], false⟩

/-- Embedding of `LineReader::handle_char` (`serial.rs`) at capacity `N`,
returning the `Result` together with the successor state.  Note the `?`
on the parse: a parse error propagates before the buffer is cleared, so
the state is left untouched on that path. -/
def LineReader.handle_char (N : Nat) (st : LineReader) (c : Char) :
    Except Error (Option Frame) × LineReader :=
  if c = '\n' then
    if !st.overflow then
      match Frame.from_str st.buffer with
      | .ok f => (.ok (some f), ⟨[], false⟩)
      | .error e => (.error e, st)
    else
      (.ok none, ⟨[], false⟩)
  else if !charIsAscii c then
    (.ok none, st)
  else if st.buffer.length + 1 ≤ N then
    (.ok none, ⟨st.buffer ++ [c], false⟩)
  else
    (.ok none, ⟨st.buffer, true⟩)

/-- Feed a sequence of characters through `handle_char`, keeping only the
final reader state. -/
def LineReader.feedAll (N : Nat) (st : LineReader) (cs : List Char) :
    LineReader :=
  cs.foldl (fun s c => (LineReader.handle_char N s c).2) st

theorem land_1023_eq_mod (v : Nat) : v &&& 1023 = v % 1024 := by
  have := Nat.and_pow_two_sub_one_eq_mod v 10
  norm_num at this
  exact this

/-- C5: for the `f817` one-byte format, encoding 5.0 (`U8F24` bits
`5 * 2^24`) yields byte `0x32`, encoding 20.0 yields `0x94`, decoding
`0x32` yields 5.0 and decoding `0x94` yields 20.0. -/
theorem c5_f817_fixed_points :
    write_f817 (5 * 2 ^ 24) = 0x32 ∧ write_f817 (20 * 2 ^ 24) = 0x94 ∧
    read_f817 0x32 = 5 * 2 ^ 24 ∧ read_f817 0x94 = 20 * 2 ^ 24 := by
  refine ⟨?_, ?_, ?_, ?_⟩ <;> decide

/-- C6 counterexample: `write_f817` does not round to the nearest tenth.
On the `U8F24` bit pattern 9227469 (≈ 0.55000005) the nearest tenth is 6
tenths — `(10 * bits + 2^23) / 2^24 = 6` is rounding to nearest — but the
encoder truncates and produces magnitude 5. -/
theorem c6_truncation_counterexample :
    write_f817 9227469 = 5 ∧ (10 * 9227469 + 2 ^ 23) / 2 ^ 24 = 6 := by
  refine ⟨?_, ?_⟩ <;> decide

/-- C6 (amended): for every `U8F24` input value, `write_f817` chooses the
tenths representation whenever the value is at most 12.7 (equivalently
`10 * bits ≤ 127 * 2^24`), *truncating* — not rounding — the value to
tenths, with bit 7 clear; otherwise it truncates to an integer and sets
bit 7. -/
theorem c6_write_f817_policy (b : Nat) :
    (10 * b ≤ 127 * 2 ^ 24 →
      write_f817 b = b * 10 / 2 ^ 24 ∧ (write_f817 b).testBit 7 = false) ∧
    (127 * 2 ^ 24 < 10 * b →
      write_f817 b = (b / 2 ^ 24) ||| 0x80 ∧
        (write_f817 b).testBit 7 = true) := by
  constructor
  · intro h
    have hb : b ≤ f817Threshold := by
      unfold f817Threshold
      omega
    rw [write_f817, if_pos hb]
    refine ⟨rfl, ?_⟩
    have hlt : b * 10 / 2 ^ 24 < 2 ^ 7 := by
      unfold f817Threshold at hb
      omega
    exact Nat.testBit_lt_two_pow hlt
  · intro h
    have hb : ¬b ≤ f817Threshold := by
      unfold f817Threshold
      omega
    rw [write_f817, if_neg hb]
    have h128 : Nat.testBit 0x80 7 = true := by decide
    refine ⟨rfl, ?_⟩
    simp [Nat.testBit_lor, h128]

/-- C6 witness: the amended policy at the concrete value 5.0
(`5 * 2^24` bits): the tenths branch applies and bit 7 is clear. -/
theorem c6_write_f817_policy_witness :
    write_f817 (5 * 2 ^ 24) = 5 * 2 ^ 24 * 10 / 2 ^ 24 ∧
    (write_f817 (5 * 2 ^ 24)).testBit 7 = false :=
  (c6_write_f817_policy (5 * 2 ^ 24)).1 (by norm_num)

/-- C1 (code bug): on the terminator `'\n'` with an unparseable buffered
line (here `"."`) and the overflow flag clear, `handle_char` propagates
the parse error with `?` *before* clearing the buffer, so the buffer is
left non-empty — contradicting the claim that the buffer is empty after
every terminator outcome. -/
theorem c1_buffer_kept_on_parse_error :
    LineReader.handle_char 32 ⟨['.'], false⟩ '\n' =
      (.error .ParseError, ⟨['.'], false⟩) ∧
    (LineReader.handle_char 32 ⟨['.'], false⟩ '\n').2.buffer ≠ [] := by
  exact ⟨rfl, by decide⟩

/-- C10: for every capacity, reader state and character other than
`'\n'`, `handle_char` returns `Ok(None)`: non-ASCII characters are
discarded and ASCII characters are buffered or latch the overflow flag,
all without error. -/
theorem c10_non_newline_never_errors (N : Nat) (st : LineReader)
    (c : Char) (h : c ≠ '\n') :
    (LineReader.handle_char N st c).1 = .ok none := by
  rw [LineReader.handle_char, if_neg h]
  split_ifs <;> rfl

/-- C10 witness at capacity 8, the fresh reader and the character `'a'`. -/
theorem c10_non_newline_never_errors_witness :
    (LineReader.handle_char 8 LineReader.new 'a').1 = .ok none :=
  c10_non_newline_never_errors 8 LineReader.new 'a' (by decide)

theorem runCmd_short_and_take {α : Type} (p : Rd α) (g : α → Packet)
    (k : Nat) (hp : IsLen p k) (d : List Nat) :
    (d.length < k → runCmd p g d = .error .BinRwError) ∧
    runCmd p g d = runCmd p g (d.take k) := by
  obtain ⟨h1, h2, h3⟩ := hp d
  constructor
  · intro h
    simp [runCmd, h2 h]
  · simp only [runCmd]
    cases hd : p d with
    | none =>
      have hmap : (p (d.take k)).map Prod.fst = none := by
        rw [← h1, hd]
        rfl
      have hn : p (d.take k) = none := Option.map_eq_none'.mp hmap
      rw [hn]
    | some ar =>
      have hs : (p (d.take k)).map Prod.fst = some ar.1 := by
        rw [← h1, hd]
        rfl
      obtain ⟨⟨a', r'⟩, hx, hfst⟩ := Option.map_eq_some'.mp hs
      replace hfst : a' = ar.1 := hfst
      rw [hx, hfst]

/-- C2 counterexample: `Packet::from_command` does not reject payloads
whose length differs from `Command::data_len`.  A 2-byte payload for `'B'`
(`RequestedState`, declared length 1) decodes fine from its first byte,
and a 9-byte payload for `'K'` (`ShotSettings`, declared length 10)
decodes fine because the `binrw` struct only reads 9 bytes. -/
theorem c2_wrong_length_decodes :
    Packet.from_command 'B' [0, 0] = .ok (.RequestedState ⟨0⟩) ∧
    ([0, 0] : List Nat).length ≠ Command.RequestedState.data_len ∧
    Command.RequestedState.serial_command = 'B' ∧
    Packet.from_command 'K' (List.replicate 9 0) =
      .ok (.ShotSettings ⟨0, 0, 0, 0, 0, 0, 0, 0⟩) ∧
    (List.replicate 9 (0 : Nat)).length ≠ Command.ShotSettings.data_len ∧
    Command.ShotSettings.serial_command = 'K' := by
  refine ⟨rfl, by decide, by decide, rfl, by decide, by decide⟩

/-- C2 (amended): for every command character with a payload schema
(`'B','E','F','K','M','N','O','P','Q'`), `Packet::from_command` returns a
decode error whenever the payload is *shorter* than the number of bytes
the command's `binrw` struct reads (`readSize`, equal to
`Command::data_len` for all schema commands except `ShotSettings`, whose
struct reads 9 of the declared 10 bytes); a payload *longer* than that is
parsed best-effort from its prefix, the excess bytes being ignored. -/
theorem c2_decode_length_policy (c : Char) (d : List Nat)
    (h : c ∈ (['B', 'E', 'F', 'K', 'M', 'N', 'O', 'P', 'Q'] : List Char)) :
    (d.length < readSize c →
      Packet.from_command c d = .error .BinRwError) ∧
    Packet.from_command c d = Packet.from_command c (d.take (readSize c)) := by
  fin_cases h
  · exact runCmd_short_and_take _ _ _ isLen_requestedStateRead d
  · exact runCmd_short_and_take _ _ _ isLen_mmrOpperationRead d
  · exact runCmd_short_and_take _ _ _ isLen_mmrOpperationRead d
  · exact runCmd_short_and_take _ _ _ isLen_shotSettingsRead d
  · exact runCmd_short_and_take _ _ _ isLen_shotSampleRead d
  · exact runCmd_short_and_take _ _ _ isLen_stateInfoRead d
  · exact runCmd_short_and_take _ _ _ isLen_shotHeaderWriteRead d
  · exact runCmd_short_and_take _ _ _ isLen_shotFrameWriteRead d
  · exact runCmd_short_and_take _ _ _ isLen_waterLevelsRead d

/-- C2 witness: the amended policy at `'B'` with the empty payload
(shorter than the 1 byte read) and with a 2-byte payload (equal to its
1-byte prefix parse). -/
theorem c2_decode_length_policy_witness :
    Packet.from_command 'B' [] = .error .BinRwError ∧
    Packet.from_command 'B' [0, 0] =
      Packet.from_command 'B' (([0, 0] : List Nat).take (readSize 'B')) :=
  ⟨(c2_decode_length_policy 'B' [] (by decide)).1 (by decide),
   (c2_decode_length_policy 'B' [0, 0] (by decide)).2⟩

/-- C7: every 20-byte `ReadFromMmr`/`WriteToMmr` payload decodes into an
`MmrOpperation` (len byte, 24-bit big-endian address, 16-byte buffer)
whose re-encoding reproduces the original 20 bytes exactly. -/
theorem c7_mmr_roundtrip (d : List Nat) (hlen : d.length = 20)
    (hb : ∀ b ∈ d, b < 256) :
    ∃ op : MmrOpperation,
      mmrOpperationRead d = some (op, []) ∧
      op.write = d ∧
      Packet.from_command 'E' d = .ok (.ReadFromMmr op) ∧
      Packet.from_command 'F' d = .ok (.WriteToMmr op) := by
  rcases d with _ | ⟨b0, _ | ⟨b1, _ | ⟨b2, _ | ⟨b3, rest⟩⟩⟩⟩ <;>
    simp only [List.length_nil, List.length_cons] at hlen <;> try omega
  have hr : rest.length = 16 := by omega
  have hb1 : b1 < 256 := hb b1 (by simp)
  have hb2 : b2 < 256 := hb b2 (by simp)
  have hb3 : b3 < 256 := hb b3 (by simp)
  have htake : rest.take 16 = rest := List.take_of_length_le (by omega)
  have hdrop : rest.drop 16 = [] := List.drop_eq_nil_of_le (by omega)
  have hread : mmrOpperationRead (b0 :: b1 :: b2 :: b3 :: rest) =
      some (⟨b0, read_u24 b1 b2 b3, rest⟩, []) := by
    simp [mmrOpperationRead, rdBind, rdU8, rdU24, rdMap, rdArr16, hr,
      htake, hdrop]
  refine ⟨⟨b0, read_u24 b1 b2 b3, rest⟩, hread, ?_, ?_, ?_⟩
  · simp only [MmrOpperation.write, write_u24, read_u24]
    have e1 : (b1 * 65536 + b2 * 256 + b3) / 65536 % 256 = b1 := by omega
    have e2 : (b1 * 65536 + b2 * 256 + b3) / 256 % 256 = b2 := by omega
    have e3 : (b1 * 65536 + b2 * 256 + b3) % 256 = b3 := by omega
    simp [e1, e2, e3]
  · show runCmd mmrOpperationRead Packet.ReadFromMmr _ = _
    simp [runCmd, hread]
  · show runCmd mmrOpperationRead Packet.WriteToMmr _ = _
    simp [runCmd, hread]

/-- C7 witness at the concrete 20-byte payload `[0, 1, ..., 19]`. -/
theorem c7_mmr_roundtrip_witness :
    ∃ op : MmrOpperation,
      mmrOpperationRead (List.range 20) = some (op, []) ∧
      op.write = List.range 20 ∧
      Packet.from_command 'E' (List.range 20) = .ok (.ReadFromMmr op) ∧
      Packet.from_command 'F' (List.range 20) = .ok (.WriteToMmr op) :=
  c7_mmr_roundtrip (List.range 20) (by decide) (by decide)

/-- C9: every decoded `ShotFrameWrite` has `max_volume ≤ 0x3FF` (the top
6 bits of the 16-bit field are masked off on decode), the encoder masks
the field the same way, and consequently a `FrameWrite` (`'P'`) payload
whose final 16-bit field has any of its top 6 bits set (value at least
1024) does not round-trip decode-then-encode byte-for-byte: the top bits
come back as zero (the field returns as the value modulo 1024). -/
theorem c9_shotframe_maxvolume_mask (b0 b1 b2 b3 b4 b5 b6 b7 : Nat)
    (h6 : b6 < 256) (h7 : b7 < 256) (hv : 1023 < b6 * 256 + b7) :
    (∀ (d : List Nat) (s : ShotFrameWrite) (r : List Nat),
      shotFrameWriteRead d = some (s, r) → s.max_volume ≤ 0x3ff) ∧
    (∀ s : ShotFrameWrite,
      (ShotFrameWrite.write s).drop 6 = write_u16 (s.max_volume &&& 0x3ff)) ∧
    ∃ s : ShotFrameWrite,
      shotFrameWriteRead [b0, b1, b2, b3, b4, b5, b6, b7] = some (s, []) ∧
      s.max_volume = (b6 * 256 + b7) % 1024 ∧
      ShotFrameWrite.write s ≠ [b0, b1, b2, b3, b4, b5, b6, b7] ∧
      (ShotFrameWrite.write s).drop 6 = write_u16 ((b6 * 256 + b7) % 1024) := by
  refine ⟨?_, ?_, ?_⟩
  · intro d s r h
    rcases d with
      _ | ⟨c0, _ | ⟨c1, _ | ⟨c2, _ | ⟨c3, _ | ⟨c4, _ | ⟨c5, _ | ⟨c6,
        _ | ⟨c7, rest⟩⟩⟩⟩⟩⟩⟩⟩
    all_goals try exact Option.noConfusion h
    have h2 : ((⟨c0, c1, c2, c3, read_f817 c4, c5,
        (c6 * 256 + c7) &&& 0x3ff⟩ : ShotFrameWrite), rest) = (s, r) := by
      injection h
    have h4 : (⟨c0, c1, c2, c3, read_f817 c4, c5,
        (c6 * 256 + c7) &&& 0x3ff⟩ : ShotFrameWrite) = s :=
      congrArg Prod.fst h2
    have h3 : s.max_volume = (c6 * 256 + c7) &&& 0x3ff := by
      rw [← h4]
    rw [h3, land_1023_eq_mod]
    omega
  · intro s
    simp [ShotFrameWrite.write]
  · have hread : shotFrameWriteRead [b0, b1, b2, b3, b4, b5, b6, b7] =
        some (⟨b0, b1, b2, b3, read_f817 b4, b5,
          (b6 * 256 + b7) &&& 0x3ff⟩, []) := rfl
    have hmod : (b6 * 256 + b7) % 1024 % 1024 = (b6 * 256 + b7) % 1024 := by
      omega
    refine ⟨⟨b0, b1, b2, b3, read_f817 b4, b5, (b6 * 256 + b7) &&& 0x3ff⟩,
      hread, land_1023_eq_mod _, ?_, ?_⟩
    · intro hcontra
      simp only [ShotFrameWrite.write, write_u16, land_1023_eq_mod, hmod,
        List.cons_append, List.nil_append, List.cons.injEq] at hcontra
      have h6' : (b6 * 256 + b7) % 1024 / 256 % 256 = b6 :=
        hcontra.2.2.2.2.2.2.1
      omega
    · simp only [ShotFrameWrite.write, write_u16, land_1023_eq_mod, hmod,
        List.cons_append, List.nil_append]
      simp

/-- C9 witness at the concrete payload `[1,2,3,4,5,6,255,255]`, whose
final field `0xFFFF` has top bits set. -/
theorem c9_shotframe_maxvolume_mask_witness :
    ∃ s : ShotFrameWrite,
      shotFrameWriteRead [1, 2, 3, 4, 5, 6, 255, 255] = some (s, []) ∧
      s.max_volume = (255 * 256 + 255) % 1024 ∧
      ShotFrameWrite.write s ≠ [1, 2, 3, 4, 5, 6, 255, 255] ∧
      (ShotFrameWrite.write s).drop 6 = write_u16 ((255 * 256 + 255) % 1024) :=
  (c9_shotframe_maxvolume_mask 1 2 3 4 5 6 255 255 (by norm_num)
    (by norm_num) (by norm_num)).2.2

theorem feedAll_ascii (N : Nat) (cs : List Char) (st : LineReader)
    (hcs : ∀ c ∈ cs, charIsAscii c = true ∧ c ≠ '\n')
    (hlen : st.buffer.length ≤ N) :
    LineReader.feedAll N st cs =
      ⟨st.buffer ++ cs.take (N - st.buffer.length),
        if cs.isEmpty then st.overflow
        else decide (N - st.buffer.length < cs.length)⟩ := by
  induction cs generalizing st with
  | nil =>
    simp [LineReader.feedAll]
  | cons c cs ih =>
    obtain ⟨hac, hnl⟩ := hcs c (by simp)
    have hcs' : ∀ c ∈ cs, charIsAscii c = true ∧ c ≠ '\n' :=
      fun c hc => hcs c (by simp [hc])
    have hstep : LineReader.feedAll N st (c :: cs) =
        LineReader.feedAll N (LineReader.handle_char N st c).2 cs := rfl
    rw [hstep]
    by_cases hroom : st.buffer.length + 1 ≤ N
    · have hhc : (LineReader.handle_char N st c).2 =
          ⟨st.buffer ++ [c], false⟩ := by
        rw [LineReader.handle_char, if_neg hnl]
        simp [hac, hroom]
      rw [hhc, ih ⟨st.buffer ++ [c], false⟩ hcs' (by simp; omega)]
      have htake : (c :: cs).take (N - st.buffer.length) =
          c :: cs.take (N - (st.buffer.length + 1)) := by
        have : N - st.buffer.length = (N - (st.buffer.length + 1)) + 1 := by
          omega
        rw [this, List.take_succ_cons]
      refine congrArg₂ LineReader.mk ?_ ?_
      · simp [htake]
      · rcases cs with _ | ⟨c', cs'⟩
        · simp
          omega
        · simp only [List.isEmpty_cons, List.length_cons, List.length_append,
            List.length_singleton, Bool.false_eq_true, if_false]
          refine decide_eq_decide.mpr ?_
          simp
          omega
    · have hfull : st.buffer.length = N := by omega
      have hhc : (LineReader.handle_char N st c).2 =
          ⟨st.buffer, true⟩ := by
        rw [LineReader.handle_char, if_neg hnl]
        simp [hac, hroom]
      rw [hhc, ih ⟨st.buffer, true⟩ hcs' (by simp [hfull])]
      have hz : N - st.buffer.length = 0 := by omega
      refine congrArg₂ LineReader.mk ?_ ?_
      · simp [hz]
      · rcases cs with _ | ⟨c', cs'⟩ <;> simp [hz]

/-- C8: feeding more than `N` non-newline ASCII characters into a
capacity-`N` `LineReader` and then `'\n'` returns `Ok(None)` for the
terminator (the oversized line is silently dropped, not an error) and
resets the state to the fresh reader, so a subsequent valid line parses
normally; moreover the overflow flag, once set by an append at capacity
(buffer full), stays set on every further non-terminator character. -/
theorem c8_overflow_silent_drop (N : Nat) (cs : List Char)
    (hcs : ∀ c ∈ cs, charIsAscii c = true ∧ c ≠ '\n')
    (hlong : N < cs.length) :
    LineReader.handle_char N (LineReader.feedAll N LineReader.new cs) '\n' =
      (.ok none, LineReader.new) ∧
    (LineReader.feedAll N LineReader.new cs).overflow = true ∧
    (∀ cs' : List Char,
      LineReader.feedAll N
        (LineReader.handle_char N
          (LineReader.feedAll N LineReader.new cs) '\n').2 cs' =
      LineReader.feedAll N LineReader.new cs') ∧
    (∀ st : LineReader, st.overflow = true → st.buffer.length = N →
      ∀ c, c ≠ '\n' →
        ((LineReader.handle_char N st c).2).overflow = true ∧
        ((LineReader.handle_char N st c).2).buffer.length = N) := by
  have hfeed : LineReader.feedAll N LineReader.new cs =
      ⟨cs.take N, true⟩ := by
    rw [feedAll_ascii N cs LineReader.new hcs (by simp [LineReader.new])]
    have hne : cs.isEmpty = false := by
      rcases cs with _ | ⟨c, cs⟩
      · simp at hlong
      · simp
    simp [LineReader.new, hne]
    omega
  have hterm : LineReader.handle_char N ⟨cs.take N, true⟩ '\n' =
      (.ok none, ⟨[], false⟩) := by
    rw [LineReader.handle_char, if_pos rfl]
    rfl
  refine ⟨?_, ?_, ?_, ?_⟩
  · rw [hfeed, hterm]
    rfl
  · rw [hfeed]
  · intro cs'
    rw [hfeed, hterm]
    rfl
  · intro st hov hful c hnl
    rw [LineReader.handle_char, if_neg hnl]
    by_cases hac : charIsAscii c
    · have : ¬(st.buffer.length + 1 ≤ N) := by omega
      simp [hac, this, hful]
    · simp [hac, hov, hful]

/-- C8 witness: capacity 2, input `"abc"` then the terminator. -/
theorem c8_overflow_silent_drop_witness :
    LineReader.handle_char 2
      (LineReader.feedAll 2 LineReader.new ['a', 'b', 'c']) '\n' =
      (.ok none, LineReader.new) ∧
    (LineReader.feedAll 2 LineReader.new ['a', 'b', 'c']).overflow = true :=
  have h := c8_overflow_silent_drop 2 ['a', 'b', 'c'] (by decide) (by decide)
  ⟨h.1, h.2.1⟩

theorem hexVal_hexDigitUpper : ∀ n < 16, hexVal (hexDigitUpper n) = some n := by
  decide

theorem hexDigitUpper_isUpperOrDigit :
    ∀ n < 16, ((hexDigitUpper n).isDigit || (hexDigitUpper n).isUpper) = true := by
  decide

theorem hex_byte_append_data (b : Nat) (hb : b < 256) (rest : List Char) :
    hex_byte (hexDigitUpper (b / 16) :: hexDigitUpper (b % 16) :: rest) =
      some (rest, b) := by
  have h1 : hexVal (hexDigitUpper (b / 16)) = some (b / 16) :=
    hexVal_hexDigitUpper (b / 16) (by omega)
  have h2 : hexVal (hexDigitUpper (b % 16)) = some (b % 16) :=
    hexVal_hexDigitUpper (b % 16) (by omega)
  simp only [hex_byte, h1, h2]
  congr 1
  congr 1
  omega

theorem append_data_cons (b : Nat) (d : List Nat) :
    append_data (b :: d) =
      hexDigitUpper (b / 16) :: hexDigitUpper (b % 16) :: append_data d := by
  simp [append_data]

theorem dataAux_append_data (fuel : Nat) (d : List Nat)
    (hb : ∀ b ∈ d, b < 256) :
    dataAux fuel (append_data d) = (append_data (d.drop fuel), d.take fuel) := by
  induction fuel generalizing d with
  | zero => simp [dataAux]
  | succ fuel ih =>
    rcases d with _ | ⟨b, bs⟩
    · simp [dataAux, append_data, hex_byte]
    · rw [append_data_cons, dataAux,
        hex_byte_append_data b (hb b (by simp)) (append_data bs)]
      simp [ih bs (fun x hx => hb x (by simp [hx]))]

theorem data_append_data (d : List Nat) (hb : ∀ b ∈ d, b < 256) :
    data (append_data d) =
      (append_data (d.drop Command.MAX_DATA_LENGTH),
       d.take Command.MAX_DATA_LENGTH) :=
  dataAux_append_data Command.MAX_DATA_LENGTH d hb

theorem dataAux_length_le (fuel : Nat) (s : List Char) :
    (dataAux fuel s).2.length ≤ fuel := by
  induction fuel generalizing s with
  | zero => simp [dataAux]
  | succ fuel ih =>
    rw [dataAux]
    cases h : hex_byte s with
    | none => simp
    | some p =>
      obtain ⟨rest, b⟩ := p
      have hih := ih rest
      cases haux : dataAux fuel rest with
      | mk r bs =>
        rw [haux] at hih
        simp [h, haux]
        simp at hih
        omega

theorem append_data_ne_nil (d : List Nat) (hd : d ≠ []) :
    append_data d ≠ [] := by
  rcases d with _ | ⟨b, bs⟩
  · exact absurd rfl hd
  · rw [append_data_cons]
    simp

/-- C4: after a grammar alternative successfully matches, any unconsumed
trailing input makes `Frame::from_str` return `ParseError`; the `data`
parser consumes at most `MAX_DATA_LENGTH` byte pairs, so a `[c]`-framed
line carrying more than `MAX_DATA_LENGTH` hex pairs is rejected through
the unconsumed-input rule; concretely `"[M]FF."` fails with `ParseError`
while `"[M]FF"` parses to `FromDe1 (CommandFrame 'M' [0xFF])`. -/
theorem c4_trailing_input_rejected :
    (∀ (s r : List Char) (f : Frame), packet s = some (r, f) → r ≠ [] →
      Frame.from_str s = .error .ParseError) ∧
    (∀ s : List Char, (data s).2.length ≤ Command.MAX_DATA_LENGTH) ∧
    (∀ (c : Char) (d : List Nat), Command.MAX_DATA_LENGTH < d.length →
      (∀ b ∈ d, b < 256) →
      Frame.from_str ('[' :: c :: ']' :: append_data d) =
        .error .ParseError) ∧
    Frame.from_str "[M]FF.".toList = .error .ParseError ∧
    Frame.from_str "[M]FF".toList = .ok (.FromDe1 ⟨'M', [0xFF]⟩) := by
  refine ⟨?_, ?_, ?_, rfl, rfl⟩
  · intro s r f hp hr
    have hre : r.isEmpty = false := by
      rcases r with _ | ⟨c, r⟩
      · exact absurd rfl hr
      · simp
    simp [Frame.from_str, hp, hre]
  · intro s
    exact dataAux_length_le Command.MAX_DATA_LENGTH s
  · intro c d hlen hb
    have hpkt : packet ('[' :: c :: ']' :: append_data d) =
        some (append_data (d.drop Command.MAX_DATA_LENGTH),
          .FromDe1 ⟨c, d.take Command.MAX_DATA_LENGTH⟩) := by
      have hdata := data_append_data d hb
      simp [packet, from_de1_packet, pchar, anychar, hdata]
    have hne : (append_data (d.drop Command.MAX_DATA_LENGTH)).isEmpty = false := by
      have : d.drop Command.MAX_DATA_LENGTH ≠ [] := by
        intro hcon
        have := congrArg List.length hcon
        simp at this
        unfold Command.MAX_DATA_LENGTH at hlen this
        omega
      have := append_data_ne_nil _ this
      rcases h : append_data (d.drop Command.MAX_DATA_LENGTH) with _ | ⟨x, xs⟩
      · exact absurd h this
      · simp
    simp [Frame.from_str, hpkt, hne]

/-- C4 witness: the unconsumed-input rule applied at the concrete parse
state of `"[M]FF."` and the over-long 21-pair line for `'M'`. -/
theorem c4_trailing_input_rejected_witness :
    Frame.from_str "[M]FF.".toList = .error .ParseError ∧
    Frame.from_str ('[' :: 'M' :: ']' :: append_data (List.replicate 21 0)) =
      .error .ParseError :=
  ⟨c4_trailing_input_rejected.1 "[M]FF.".toList ['.']
      (.FromDe1 ⟨'M', [0xFF]⟩) (by decide) (by decide),
   c4_trailing_input_rejected.2.2.1 'M' (List.replicate 21 0) (by decide)
      (by decide)⟩

/-- Well-formedness of a `Frame` value as enforced by the Rust types:
payload vectors are `heapless::Vec<u8, MAX_DATA_LENGTH>`, so the data is
at most `MAX_DATA_LENGTH` bytes, each below 256. -/
def Frame.wellFormed : Frame → Prop
  | .FromDe1 cf =>
    cf.data.length ≤ Command.MAX_DATA_LENGTH ∧ ∀ b ∈ cf.data, b < 256
  | .ToDe1 cf =>
    cf.data.length ≤ Command.MAX_DATA_LENGTH ∧ ∀ b ∈ cf.data, b < 256
  | .Subscribe _ => True
  | .Unsubscribe _ => True

/-- The carried command character of a `Subscribe`/`Unsubscribe` frame is
not `'>'` (the one character on which serialisation is ambiguous with the
`to_de1` grammar alternative). -/
def Frame.subscribeNotGt : Frame → Prop
  | .Subscribe c => c ≠ '>'
  | .Unsubscribe c => c ≠ '>'
  | _ => True

theorem dropLast_append_newline (l : List Char) : (l ++ ['\n']).dropLast = l := by
  simp

theorem take_all_of_le (d : List Nat) (h : d.length ≤ Command.MAX_DATA_LENGTH) :
    d.take Command.MAX_DATA_LENGTH = d :=
  List.take_of_length_le h

theorem drop_all_of_le (d : List Nat) (h : d.length ≤ Command.MAX_DATA_LENGTH) :
    d.drop Command.MAX_DATA_LENGTH = [] :=
  List.drop_eq_nil_of_le h

theorem append_data_nil : append_data [] = [] := rfl

/-- C3 (amended): serialising a well-formed `Frame` with `Frame::write`
and reparsing the produced line after stripping the trailing newline
yields the original frame, *except* for `Subscribe('>')` and
`Unsubscribe('>')`, whose serialised forms `"<+>>"`/`"<->>"` reparse as a
`ToDe1` match with trailing input and therefore fail; the serialised hex
payload uses only uppercase hex digits. -/
theorem c3_write_parse_roundtrip :
    (∀ f : Frame, f.wellFormed → f.subscribeNotGt →
      Frame.from_str (Frame.write f).dropLast = .ok f) ∧
    (∀ d : List Nat, (∀ b ∈ d, b < 256) →
      ∀ ch ∈ append_data d, (ch.isDigit || ch.isUpper) = true) := by
  constructor
  · intro f hwf hgt
    cases f with
    | FromDe1 cf =>
      obtain ⟨cmd, dd⟩ := cf
      obtain ⟨hlen, hb⟩ := hwf
      have hw : Frame.write (.FromDe1 ⟨cmd, dd⟩) =
          ('[' :: cmd :: ']' :: append_data dd) ++ ['\n'] := by
        simp [Frame.write]
      rw [hw, dropLast_append_newline]
      have hpkt : packet ('[' :: cmd :: ']' :: append_data dd) =
          some ([], .FromDe1 ⟨cmd, dd⟩) := by
        simp [packet, from_de1_packet, pchar, anychar, data_append_data dd hb,
          take_all_of_le dd hlen, drop_all_of_le dd hlen, append_data_nil]
      simp [Frame.from_str, hpkt]
    | ToDe1 cf =>
      obtain ⟨cmd, dd⟩ := cf
      obtain ⟨hlen, hb⟩ := hwf
      have hw : Frame.write (.ToDe1 ⟨cmd, dd⟩) =
          ('<' :: cmd :: '>' :: append_data dd) ++ ['\n'] := by
        simp [Frame.write]
      rw [hw, dropLast_append_newline]
      have hne : ('<' : Char) ≠ '[' := by decide
      have hpkt : packet ('<' :: cmd :: '>' :: append_data dd) =
          some ([], .ToDe1 ⟨cmd, dd⟩) := by
        simp [packet, from_de1_packet, to_de1_packet, pchar, anychar, hne,
          data_append_data dd hb, take_all_of_le dd hlen,
          drop_all_of_le dd hlen, append_data_nil]
      simp [Frame.from_str, hpkt]
    | Subscribe cmd =>
      have hgt' : cmd ≠ '>' := hgt
      have hw : Frame.write (.Subscribe cmd) =
          ('<' :: '+' :: cmd :: '>' :: []) ++ ['\n'] := by
        simp [Frame.write]
      rw [hw, dropLast_append_newline]
      have hne : ('<' : Char) ≠ '[' := by decide
      have hpkt : packet ('<' :: '+' :: cmd :: '>' :: []) =
          some ([], .Subscribe cmd) := by
        simp [packet, from_de1_packet, to_de1_packet, subscribe_packet,
          pchar, anychar, hne, hgt']
      simp [Frame.from_str, hpkt]
    | Unsubscribe cmd =>
      have hgt' : cmd ≠ '>' := hgt
      have hw : Frame.write (.Unsubscribe cmd) =
          ('<' :: '-' :: cmd :: '>' :: []) ++ ['\n'] := by
        simp [Frame.write]
      rw [hw, dropLast_append_newline]
      have hne : ('<' : Char) ≠ '[' := by decide
      have hne2 : ('-' : Char) ≠ '+' := by decide
      have hpkt : packet ('<' :: '-' :: cmd :: '>' :: []) =
          some ([], .Unsubscribe cmd) := by
        simp [packet, from_de1_packet, to_de1_packet, subscribe_packet,
          unsubscribe_packet, pchar, anychar, hne, hne2, hgt']
      simp [Frame.from_str, hpkt]
  · intro d hb ch hch
    simp only [append_data, List.mem_flatMap, List.mem_cons,
      List.not_mem_nil, or_false] at hch
    obtain ⟨b, hbm, hin⟩ := hch
    have hb' : b < 256 := hb b hbm
    rcases hin with h | h
    · rw [h]
      exact hexDigitUpper_isUpperOrDigit (b / 16) (by omega)
    · rw [h]
      exact hexDigitUpper_isUpperOrDigit (b % 16) (by omega)

/-- C3 counterexample: `Subscribe('>')` serialises to the line `"<+>>"`,
which reparses as a `to_de1` match with trailing input and therefore
fails with `ParseError` instead of round-tripping. -/
theorem c3_subscribe_gt_fails :
    Frame.from_str (Frame.write (.Subscribe '>')).dropLast =
      .error .ParseError ∧
    Frame.from_str (Frame.write (.Subscribe '>')).dropLast ≠
      .ok (.Subscribe '>') := by
  have h1 : Frame.from_str (Frame.write (.Subscribe '>')).dropLast =
      .error .ParseError := rfl
  refine ⟨h1, ?_⟩
  rw [h1]
  intro hcon
  exact Except.noConfusion hcon

/-- C3 witness: the round trip at the concrete frame
`FromDe1 (CommandFrame 'M' [0xFF])`. -/
theorem c3_write_parse_roundtrip_witness :
    Frame.from_str (Frame.write (.FromDe1 ⟨'M', [0xFF]⟩)).dropLast =
      .ok (.FromDe1 ⟨'M', [0xFF]⟩) :=
  c3_write_parse_roundtrip.1 (.FromDe1 ⟨'M', [0xFF]⟩)
    ⟨by decide, by decide⟩ trivial
